import Mathlib

/-!
# Verification of the dwatcher watch-debounce-restart engine

Shallow embedding of `src/index.js` of the dwatcher repository.

Conventions:
* JavaScript strings are modelled as `List Char`.
* `shouldIgnore` / `shouldWatch` are translated from the source functions of
  the same names (lines 36-59).
* The glob-to-regex translation
  `pattern.replace(/\*\*/g, '.*').replace(/\*/g, '[^/]*')` is modelled by
  `compileDD`: the second `replace` also rewrites the `*` introduced by the
  first, so every `**` compiles to `. [^/]*` (one arbitrary character
  followed by a run of non-slash characters).  The single-star branch
  `pattern.replace(/\*/g, '.*')` is modelled by `compileS`.  An unescaped
  `.` in a pattern is a regex wildcard (`RTok.anyc`).  The model is faithful
  for patterns built from characters that are not regex metacharacters
  other than `.` and `*`.
* `RegExp.test` is an unanchored search (`rtest`): the compiled tokens may
  match starting at any position and need not consume the whole string.
* JS regex `.` matches any character except a line terminator (`lineTerm`);
  `[^/]` matches any character other than `/`.
-/

/-- The line-terminator characters that JS regex `.` does not match. -/
def lineTerm (c : Char) : Bool :=
  c = '\n' || c = '\r' || c = '\u2028' || c = '\u2029'

/-- `needle.isPrefixOf`-based substring containment: JS `String.includes`. -/
def containsSub (s needle : List Char) : Bool :=
  needle.isPrefixOf s ||
    (match s with
     | [] => false
     | _ :: xs => containsSub xs needle)

/-- JS `String.includes` for a single character (`pattern.includes('*')`). -/
def hasChar (c : Char) (l : List Char) : Bool :=
  l.any (fun x => x == c)

/-- Tokens of the regexes produced by `shouldIgnore`'s glob translation. -/
inductive RTok where
  /-- a literal character -/
  | lit (c : Char)
  /-- regex `.`: any character except a line terminator -/
  | anyc
  /-- regex `.*`: a run of arbitrary non-line-terminator characters -/
  | star
  /-- regex `[^/]*`: a run of characters other than `/` -/
  | nonSlashStar
deriving DecidableEq

/-- The suffixes of `s` reachable by deleting characters from the front,
none of which satisfies `bad` — the positions a `bad`-avoiding repetition
(`.*` or `[^/]*`) can reach.  Always includes `s` itself. -/
def goodTails (bad : Char → Bool) : List Char → List (List Char)
  | [] => [[]]
  | x :: xs => (x :: xs) :: (if bad x then [] else goodTails bad xs)

/-- Does the token list match some prefix of the string?  (A JS regex match
found at the current position may end anywhere.)  A repetition token
matches a maximal-or-shorter run: it may stop at any reachable suffix. -/
def matchHere : List RTok → List Char → Bool
  | [], _ => true
  | RTok.lit _ :: _, [] => false
  | RTok.lit c :: ts, x :: xs => x == c && matchHere ts xs
  | RTok.anyc :: _, [] => false
  | RTok.anyc :: ts, x :: xs => !lineTerm x && matchHere ts xs
  | RTok.star :: ts, s => (goodTails lineTerm s).any fun t => matchHere ts t
  | RTok.nonSlashStar :: ts, s =>
      (goodTails (fun c => c == '/') s).any fun t => matchHere ts t

/-- JS `RegExp.test`: unanchored search for a match at any start position. -/
def rtest (ts : List RTok) (s : List Char) : Bool :=
  matchHere ts s ||
    (match s with
     | [] => false
     | _ :: xs => rtest ts xs)

/-- Compilation of a pattern containing `**` (source line 39):
`pattern.replace(/\*\*/g, '.*').replace(/\*/g, '[^/]*')`.  The second
replace rewrites the star of each inserted `.*`, so `**` yields
`anyc, nonSlashStar`; a remaining single `*` yields `nonSlashStar`; `.`
is the regex wildcard; every other character is literal. -/
def compileDD : List Char → List RTok
  | [] => []
  | c :: rest =>
    if c = '*' then
      match rest with
      | [] => [RTok.nonSlashStar]
      | c2 :: rest2 =>
        if c2 = '*' then RTok.anyc :: RTok.nonSlashStar :: compileDD rest2
        else RTok.nonSlashStar :: compileDD (c2 :: rest2)
    else if c = '.' then RTok.anyc :: compileDD rest
    else RTok.lit c :: compileDD rest

/-- Compilation of a pattern containing `*` but not `**` (source line 43):
`pattern.replace(/\*/g, '.*')`. Each `*` becomes `.*` (which crosses `/`),
`.` is the regex wildcard, every other character is literal. -/
def compileS : List Char → List RTok
  | [] => []
  | c :: rest =>
    if c = '*' then RTok.star :: compileS rest
    else if c = '.' then RTok.anyc :: compileS rest
    else RTok.lit c :: compileS rest

/-- Source lines 36-48.  `shouldIgnore(filePath, ignorePatterns)`: some
pattern matches; the `**` branch, the single-`*` branch, and the plain
substring branch, in that order. -/
def shouldIgnore (filePath : List Char) (ignorePatterns : List (List Char)) :
    Bool :=
  ignorePatterns.any fun pat =>
    if containsSub pat ['*', '*'] then rtest (compileDD pat) filePath
    else if hasChar '*' pat then rtest (compileS pat) filePath
    else containsSub filePath pat

/-- Source lines 56-59.  `shouldWatch(filePath, watchExtensions)`: empty
extension list watches everything, otherwise suffix match. -/
def shouldWatch (filePath : List Char) (watchExtensions : List (List Char)) :
    Bool :=
  watchExtensions.isEmpty || watchExtensions.any fun ext => ext.isSuffixOf filePath

/-- The claim's reading of the matching rules, for comparison with the
source's `shouldIgnore` (this definition follows the spec's words, not the
code): `**` matches an arbitrary run of characters across any number of
path segments, a single `*` matches within one segment only (never across
`/`), and all other characters are literal; matching is an unanchored
search, which subsumes the substring rule for wildcard-free patterns. -/
def compileClaim : List Char → List RTok
  | [] => []
  | c :: rest =>
    if c = '*' then
      match rest with
      | [] => [RTok.nonSlashStar]
      | c2 :: rest2 =>
        if c2 = '*' then RTok.star :: compileClaim rest2
        else RTok.nonSlashStar :: compileClaim (c2 :: rest2)
    else RTok.lit c :: compileClaim rest

/-- `shouldIgnore` as the claim describes it (spec's words, not the code). -/
def claimIgnore (filePath : List Char) (ignorePatterns : List (List Char)) :
    Bool :=
  ignorePatterns.any fun pat => rtest (compileClaim pat) filePath

/-- All-literal token list for a wildcard-free piece of a pattern. -/
def lits (l : List Char) : List RTok :=
  l.map RTok.lit

/-- Matching as the amended description of the single-`*` branch states it:
the path contains an occurrence of `a` followed — after arbitrary
characters, including `/` — by an occurrence of `b`.  (Follows the amended
spec's words, to be compared with the source's `shouldIgnore`.) -/
def starSpecMatch (a b p : List Char) : Bool :=
  (a.isPrefixOf p && containsSub (p.drop a.length) b) ||
    (match p with
     | [] => false
     | _ :: xs => starSpecMatch a b xs)

/-- Matching as the amended description of a trailing-`**` pattern states
it: the path contains an occurrence of `a` followed by at least one more
character.  (Follows the amended spec's words, to be compared with the
source's `shouldIgnore`.) -/
def recSpecMatch (a p : List Char) : Bool :=
  (a.isPrefixOf p && decide (a.length < p.length)) ||
    (match p with
     | [] => false
     | _ :: xs => recSpecMatch a xs)

theorem beqCharComm (x c : Char) : (x == c) = (c == x) := by
  by_cases h : x = c
  · simp [h]
  · simp [beq_eq_false_iff_ne, h, Ne.symm h]

theorem isPrefixOf_single_star {b : List Char} (hb : '*' ∉ b) :
    List.isPrefixOf ['*'] b = false := by
  cases b with
  | nil => rfl
  | cons c cs =>
      have : c ≠ '*' := fun h => hb (h ▸ List.mem_cons_self c cs)
      simp [List.isPrefixOf, beq_eq_false_iff_ne, Ne.symm this]

theorem noStar_noDoubleStar {l : List Char} (h : '*' ∉ l) :
    containsSub l ['*', '*'] = false := by
  induction l with
  | nil => rfl
  | cons c cs ih =>
      have hc : c ≠ '*' := fun hce => h (hce ▸ List.mem_cons_self c cs)
      have hcs : '*' ∉ cs := fun hm => h (List.mem_cons_of_mem c hm)
      rw [containsSub]
      simp [List.isPrefixOf, beq_eq_false_iff_ne, Ne.symm hc, ih hcs]

theorem noDoubleStar_split {a b : List Char} (ha : '*' ∉ a) (hb : '*' ∉ b) :
    containsSub (a ++ '*' :: b) ['*', '*'] = false := by
  induction a with
  | nil =>
      rw [List.nil_append, containsSub]
      simp [List.isPrefixOf, isPrefixOf_single_star hb, noStar_noDoubleStar hb]
  | cons c cs ih =>
      have hc : c ≠ '*' := fun hce => ha (hce ▸ List.mem_cons_self c cs)
      have hcs : '*' ∉ cs := fun hm => ha (List.mem_cons_of_mem c hm)
      rw [List.cons_append, containsSub]
      simp [List.isPrefixOf, beq_eq_false_iff_ne, Ne.symm hc, ih hcs]

theorem doubleStar_trailing (a : List Char) :
    containsSub (a ++ ['*', '*']) ['*', '*'] = true := by
  induction a with
  | nil => rfl
  | cons c cs ih =>
      rw [List.cons_append, containsSub]
      simp [ih]

theorem hasChar_false {c : Char} {l : List Char} (h : c ∉ l) :
    hasChar c l = false := by
  simp only [hasChar, List.any_eq_false]
  intro x hx hce
  exact h (beq_iff_eq.mp hce ▸ hx)

theorem hasChar_append_star (a b : List Char) :
    hasChar '*' (a ++ '*' :: b) = true := by
  simp [hasChar]

theorem compileS_lits {b : List Char} (hs : '*' ∉ b) (hd : '.' ∉ b) :
    compileS b = lits b := by
  induction b with
  | nil => rfl
  | cons c cs ih =>
      have hc1 : c ≠ '*' := fun h => hs (h ▸ List.mem_cons_self c cs)
      have hc2 : c ≠ '.' := fun h => hd (h ▸ List.mem_cons_self c cs)
      rw [compileS]
      simp [hc1, hc2, lits,
        ih (fun hm => hs (List.mem_cons_of_mem c hm))
           (fun hm => hd (List.mem_cons_of_mem c hm))]

theorem compileS_split {a : List Char} (b : List Char)
    (hs : '*' ∉ a) (hd : '.' ∉ a) :
    compileS (a ++ '*' :: b) = lits a ++ RTok.star :: compileS b := by
  induction a with
  | nil => rw [List.nil_append, compileS]; simp [lits]
  | cons c cs ih =>
      have hc1 : c ≠ '*' := fun h => hs (h ▸ List.mem_cons_self c cs)
      have hc2 : c ≠ '.' := fun h => hd (h ▸ List.mem_cons_self c cs)
      rw [List.cons_append, compileS]
      simp [hc1, hc2, lits,
        ih (fun hm => hs (List.mem_cons_of_mem c hm))
           (fun hm => hd (List.mem_cons_of_mem c hm))]

theorem compileDD_trailing {a : List Char} (hs : '*' ∉ a) (hd : '.' ∉ a) :
    compileDD (a ++ ['*', '*']) = lits a ++ [RTok.anyc, RTok.nonSlashStar] := by
  induction a with
  | nil => rfl
  | cons c cs ih =>
      have hc1 : c ≠ '*' := fun h => hs (h ▸ List.mem_cons_self c cs)
      have hc2 : c ≠ '.' := fun h => hd (h ▸ List.mem_cons_self c cs)
      rw [List.cons_append, compileDD.eq_def]
      simp only [hc1, hc2, if_false, ite_false, reduceIte,
        ih (fun hm => hs (List.mem_cons_of_mem c hm))
           (fun hm => hd (List.mem_cons_of_mem c hm))]
      simp [lits]

theorem matchHere_lits_append (a : List Char) (ts : List RTok) (s : List Char) :
    matchHere (lits a ++ ts) s =
      (a.isPrefixOf s && matchHere ts (s.drop a.length)) := by
  induction a generalizing s with
  | nil => simp [lits, List.isPrefixOf]
  | cons c cs ih =>
      cases s with
      | nil => simp [lits, matchHere, List.isPrefixOf]
      | cons x xs =>
          have ih' := ih xs
          simp only [lits, List.map_cons] at ih' ⊢
          simp only [List.cons_append, matchHere, List.isPrefixOf,
            List.length_cons, List.drop_succ_cons, List.append_eq] at ih' ⊢
          rw [ih', beqCharComm, Bool.and_assoc]

theorem matchHere_lits (b s : List Char) :
    matchHere (lits b) s = b.isPrefixOf s := by
  have h := matchHere_lits_append b [] s
  simpa [matchHere] using h

theorem matchHere_star_lits (b : List Char) (s : List Char)
    (hs : ∀ c ∈ s, lineTerm c = false) :
    matchHere (RTok.star :: lits b) s = containsSub s b := by
  induction s with
  | nil =>
      simp [matchHere, goodTails, matchHere_lits, containsSub]
  | cons x xs ih =>
      have hx : lineTerm x = false := hs x (List.mem_cons_self x xs)
      have hxs : ∀ c ∈ xs, lineTerm c = false :=
        fun c hc => hs c (List.mem_cons_of_mem x hc)
      rw [containsSub, ← ih hxs]
      simp [matchHere, goodTails, hx, matchHere_lits]

theorem goodTails_any_nil (bad : Char → Bool) (s : List Char) :
    (goodTails bad s).any (fun t => matchHere [] t) = true := by
  cases s <;> simp [goodTails, matchHere]

theorem matchHere_ns_nil (s : List Char) :
    matchHere [RTok.nonSlashStar] s = true := by
  rw [matchHere]
  exact goodTails_any_nil _ s

theorem matchHere_anyns (s : List Char)
    (hs : ∀ c ∈ s, lineTerm c = false) :
    matchHere [RTok.anyc, RTok.nonSlashStar] s = !s.isEmpty := by
  cases s with
  | nil => rfl
  | cons x xs =>
      have hx : lineTerm x = false := hs x (List.mem_cons_self x xs)
      have hstep : matchHere [RTok.anyc, RTok.nonSlashStar] (x :: xs) =
          (!lineTerm x && matchHere [RTok.nonSlashStar] xs) := rfl
      rw [hstep, hx, matchHere_ns_nil]
      rfl

theorem not_isEmpty_drop (n : Nat) (l : List Char) :
    (!(l.drop n).isEmpty) = decide (n < l.length) := by
  by_cases h : n < l.length
  · have : l.drop n ≠ [] := by
      simp [List.drop_eq_nil_iff]
      omega
    simp [h, List.isEmpty_iff, this]
  · have : l.drop n = [] := by
      simp [List.drop_eq_nil_iff]
      omega
    simp [h, this]

theorem rtest_star_split (a b : List Char) (p : List Char)
    (hp : ∀ c ∈ p, lineTerm c = false) :
    rtest (lits a ++ RTok.star :: lits b) p = starSpecMatch a b p := by
  induction p with
  | nil =>
      rw [rtest, starSpecMatch]
      simp [matchHere_lits_append, matchHere_star_lits b [] (by simp)]
  | cons x xs ih =>
      have hdrop : ∀ c ∈ (x :: xs).drop a.length, lineTerm c = false :=
        fun c hc => hp c (List.drop_subset _ _ hc)
      have hxs : ∀ c ∈ xs, lineTerm c = false :=
        fun c hc => hp c (List.mem_cons_of_mem x hc)
      rw [rtest, starSpecMatch]
      rw [matchHere_lits_append, matchHere_star_lits b _ hdrop, ih hxs]

theorem rtest_trailingDD (a : List Char) (p : List Char)
    (hp : ∀ c ∈ p, lineTerm c = false) :
    rtest (lits a ++ [RTok.anyc, RTok.nonSlashStar]) p = recSpecMatch a p := by
  induction p with
  | nil =>
      rw [rtest, recSpecMatch]
      simp [matchHere_lits_append, matchHere_anyns [] (by simp)]
  | cons x xs ih =>
      have hdrop : ∀ c ∈ (x :: xs).drop a.length, lineTerm c = false :=
        fun c hc => hp c (List.drop_subset _ _ hc)
      have hxs : ∀ c ∈ xs, lineTerm c = false :=
        fun c hc => hp c (List.mem_cons_of_mem x hc)
      rw [rtest, recSpecMatch]
      rw [matchHere_lits_append, matchHere_anyns _ hdrop, ih hxs,
        not_isEmpty_drop]



/-- C5 counterexample.  The claim's matching rules (`claimIgnore`: `**`
crosses arbitrarily many segments, a single `*` never crosses `/`) disagree
with the source's `shouldIgnore` at concrete inputs: the single-`*` pattern
`a*b` does match the path `a/b` (the wildcard crosses the separator), and
the recursive pattern `a/**/b` does not match `a/x/y/b` (depth two). -/
theorem c5_counterexample :
    shouldIgnore "a/b".toList ["a*b".toList] = true ∧
    claimIgnore "a/b".toList ["a*b".toList] = false ∧
    shouldIgnore "a/x/y/b".toList ["a/**/b".toList] = false ∧
    claimIgnore "a/x/y/b".toList ["a/**/b".toList] = true := by
  refine ⟨by decide, by decide, by decide, by decide⟩

/-- C5 amended.  For patterns over plain path characters (no `.`, no
wildcard inside the literal pieces; paths without line terminators):
a wildcard-free pattern matches by substring containment; a pattern
`A*B` with a single `*` matches iff the path contains `A` followed —
after arbitrary characters, *including* `/` — by `B`; a pattern `A**`
with a trailing recursive marker matches iff the path contains `A`
followed by at least one more character (the marker compiles to one
arbitrary character plus a run of non-separator characters, so by itself
it does not span additional separators beyond that first character). -/
theorem c5_amended :
    (∀ (p pat : List Char), '*' ∉ pat →
        shouldIgnore p [pat] = containsSub p pat) ∧
    (∀ (p a b : List Char), '*' ∉ a → '*' ∉ b → '.' ∉ a → '.' ∉ b →
        (∀ c ∈ p, lineTerm c = false) →
        shouldIgnore p [a ++ '*' :: b] = starSpecMatch a b p) ∧
    (∀ (p a : List Char), '*' ∉ a → '.' ∉ a →
        (∀ c ∈ p, lineTerm c = false) →
        shouldIgnore p [a ++ ['*', '*']] = recSpecMatch a p) := by
  refine ⟨?_, ?_, ?_⟩
  · intro p pat hstar
    simp [shouldIgnore, noStar_noDoubleStar hstar, hasChar_false hstar]
  · intro p a b hsa hsb hda hdb hp
    simp only [shouldIgnore, List.any_cons, List.any_nil, Bool.or_false,
      noDoubleStar_split hsa hsb, if_false, hasChar_append_star, if_true,
      Bool.false_eq_true, reduceIte]
    rw [compileS_split b hsa hda, compileS_lits hsb hdb,
      rtest_star_split a b p hp]
  · intro p a hsa hda
    intro hp
    have hdd : containsSub (a ++ ['*', '*']) ['*', '*'] = true :=
      doubleStar_trailing a
    simp only [shouldIgnore, List.any_cons, List.any_nil, Bool.or_false,
      hdd, if_true, reduceIte]
    rw [compileDD_trailing hsa hda, rtest_trailingDD a p hp]

/-- C5 witness: the amended statement instantiated at concrete inputs. -/
theorem c5_amended_witness :
    shouldIgnore "app.log".toList ["log".toList]
      = containsSub "app.log".toList "log".toList ∧
    shouldIgnore "a/b".toList ["a".toList ++ '*' :: "b".toList]
      = starSpecMatch "a".toList "b".toList "a/b".toList ∧
    shouldIgnore "node_modules/a/b.js".toList
        ["node_modules/".toList ++ ['*', '*']]
      = recSpecMatch "node_modules/".toList "node_modules/a/b.js".toList := by
  refine ⟨c5_amended.1 _ _ (by decide),
    c5_amended.2.1 _ _ _ (by decide) (by decide) (by decide) (by decide)
      (by decide),
    c5_amended.2.2 _ _ (by decide) (by decide) (by decide)⟩

/-- C7: with ignore set `['node_modules/**', '*.log']`, `shouldIgnore`
ignores `node_modules/a/b.js` and `app.log` but not `src/x.js`. -/
theorem c7_scenarioA :
    shouldIgnore "node_modules/a/b.js".toList
      ["node_modules/**".toList, "*.log".toList] = true ∧
    shouldIgnore "app.log".toList
      ["node_modules/**".toList, "*.log".toList] = true ∧
    shouldIgnore "src/x.js".toList
      ["node_modules/**".toList, "*.log".toList] = false := by
  refine ⟨by decide, by decide, by decide⟩

/-- C9: the `.` of a pattern is not escaped before being compiled into a
regex, so it matches any character: `catalog` is ignored by `*.log` even
though it does not contain the literal text `.log`. -/
theorem c9_unescaped_dot :
    shouldIgnore "catalog".toList ["*.log".toList] = true ∧
    containsSub "catalog".toList ".log".toList = false := by
  refine ⟨by decide, by decide⟩

/-!
## ProcessSupervisor (source lines 100-152, 251-261)

State machine for the child-process lifecycle.  JavaScript runs the bodies
of `startTargetApp` and `killTargetApp` synchronously on one event-loop
thread; child-process exit notifications and `setTimeout` callbacks are
separate asynchronous turns.  The model therefore exposes one transition
per synchronous block:

* `killTargetApp` (lines 135-152): guard `if (!childProcess) return;`,
  then `isRestarting = true`, `childProcess.kill('SIGTERM')`, and a 5000 ms
  `setTimeout` whose handle is discarded (it can never be cleared).
* `startTargetApp` (lines 100-129): `if (childProcess) killTargetApp();`
  then `spawn` — it does not wait for the old child to exit.
* `childExit` (lines 116-123): the `exit` handler sets the module-level
  `childProcess` to `null`; it touches neither `isRestarting` nor the
  pending force-kill timer.
* `killTimerFire` (lines 143-151): the timeout body.  Node sets a child's
  `.killed` flag as soon as `kill()` successfully *sends* a signal (it does
  not mean the process died), modelled by `killedPids`.

`live` is the OS-level ground truth: pids of spawned processes that have
not yet exited.  Exit events are delivered by the environment, so a child
may ignore SIGTERM and stay in `live` indefinitely.
-/

/-- Externally visible actions of the supervisor. -/
inductive SupAction where
  /-- `childProcess.kill('SIGTERM')` delivered to the pid -/
  | sigterm (pid : Nat)
  /-- `childProcess.kill('SIGKILL')` delivered to the pid -/
  | sigkill (pid : Nat)
  /-- `spawn(command, args, ...)` creating the pid -/
  | spawned (pid : Nat)
deriving DecidableEq

/-- Module-level mutable state of `src/index.js` plus OS ground truth. -/
structure SupState where
  /-- the `childProcess` module variable (pid of the current child object) -/
  childProcess : Option Nat
  /-- pids whose `.killed` flag is set (a signal was successfully sent) -/
  killedPids : List Nat
  /-- the `isRestarting` module variable (the RestartGuard) -/
  isRestarting : Bool
  /-- absolute fire times of armed force-kill timeouts (handles are
  discarded by the source, so they are never cleared) -/
  killTimers : List Nat
  /-- OS-level: pids of spawned processes that have not exited -/
  live : List Nat
  /-- next fresh pid -/
  nextPid : Nat
deriving DecidableEq

/-- The state before `dwatcher` starts anything. -/
def initState : SupState :=
  { childProcess := none, killedPids := [], isRestarting := false,
    killTimers := [], live := [], nextPid := 0 }

/-- Source lines 135-152, `killTargetApp()` called at time `now`: early
return when no child; otherwise set the guard, send SIGTERM (which sets the
`.killed` flag of a live child), and arm a 5000 ms force-kill timeout. -/
def killTargetApp (now : Nat) (s : SupState) : SupState × List SupAction :=
  match s.childProcess with
  | none => (s, [])
  | some pid =>
      ({ s with
          isRestarting := true,
          killedPids :=
            if pid ∈ s.live then pid :: s.killedPids else s.killedPids,
          killTimers := s.killTimers ++ [now + 5000] },
       if pid ∈ s.live then [SupAction.sigterm pid] else [])

/-- Source lines 100-129, `startTargetApp` called at time `now`: if a child
object is present, run `killTargetApp` (synchronously — but that only
*requests* termination), then spawn the new child at a fresh pid. -/
def startTargetApp (now : Nat) (s : SupState) : SupState × List SupAction :=
  let ka := if s.childProcess.isSome then killTargetApp now s else (s, [])
  let pid := ka.1.nextPid
  ({ ka.1 with
      childProcess := some pid,
      live := ka.1.live ++ [pid],
      nextPid := pid + 1 },
   ka.2 ++ [SupAction.spawned pid])

/-- Source lines 116-123: delivery of the `exit` event of a supervised
child.  The handler sets the module-level `childProcess` to `null`; the
guard and the force-kill timers are untouched. -/
def childExit (pid : Nat) (s : SupState) : SupState :=
  if pid ∈ s.live then
    { s with live := s.live.erase pid, childProcess := none }
  else s

/-- Source lines 143-151: the force-kill timeout armed for time `t` fires.
`if (childProcess && !childProcess.killed)` — SIGKILL only when the current
child object exists and never had a signal successfully sent to it — then
`isRestarting = false` unconditionally. -/
def killTimerFire (t : Nat) (s : SupState) : SupState × List SupAction :=
  if t ∈ s.killTimers then
    let s0 := { s with killTimers := s.killTimers.erase t }
    match s.childProcess with
    | some pid =>
        if pid ∈ s.killedPids then
          ({ s0 with isRestarting := false }, [])
        else
          ({ s0 with
              childProcess := none,
              isRestarting := false,
              killedPids := pid :: s0.killedPids }, [SupAction.sigkill pid])
    | none => ({ s0 with isRestarting := false }, [])
  else (s, [])

/-- C1 counterexample.  Start a child at t=0, then call `startTargetApp`
again at t=100 before the first child has exited (SIGTERM delivery is
asynchronous and the code does not wait for the exit event): after the
second start, *two* supervised children are alive at once, refuting "at
most one supervised child process is running at every instant". -/
theorem c1_counterexample :
    1 < (startTargetApp 100 (startTargetApp 0 initState).1).1.live.length ∧
    (startTargetApp 100 (startTargetApp 0 initState).1).1.live = [0, 1] := by
  refine ⟨by decide, by decide⟩

/-- C1 amended.  When `startTargetApp` is called while a child is live, it
*requests* graceful termination (SIGTERM) of the old child before spawning
the new one, but it does not wait for the old child to exit: immediately
after the call both the old and the new pid are alive under supervision. -/
theorem c1_amended (now : Nat) (s : SupState) (pid : Nat)
    (hcp : s.childProcess = some pid) (hlive : pid ∈ s.live) :
    (startTargetApp now s).2 = [SupAction.sigterm pid, SupAction.spawned s.nextPid] ∧
    pid ∈ (startTargetApp now s).1.live ∧
    s.nextPid ∈ (startTargetApp now s).1.live := by
  simp only [startTargetApp, killTargetApp, hcp, Option.isSome_some, if_true,
    hlive]
  refine ⟨rfl, ?_, ?_⟩
  · exact List.mem_append_left _ hlive
  · exact List.mem_append_right _ (List.mem_singleton.mpr rfl)

/-- C1 witness: the amended statement at the concrete two-start trace. -/
theorem c1_amended_witness :
    (startTargetApp 100 (startTargetApp 0 initState).1).2
      = [SupAction.sigterm 0, SupAction.spawned 1] ∧
    0 ∈ (startTargetApp 100 (startTargetApp 0 initState).1).1.live ∧
    1 ∈ (startTargetApp 100 (startTargetApp 0 initState).1).1.live := by
  have h := c1_amended 100 (startTargetApp 0 initState).1 0 (by decide)
    (by decide)
  simpa using h

/-- A complete stop sequence in which the child exits on its own before the
5000 ms fallback: start at t=0, `killTargetApp` at t=100 (the shutdown path
of source lines 251-261 calls it directly), exit of pid 0 delivered before
the t=5100 timer fires. -/
def stopTrace : SupState :=
  childExit 0 (killTargetApp 100 (startTargetApp 0 initState).1).1

/-- C2 counterexample.  In `stopTrace` the child has confirmed exit well
before the fallback deadline, yet the fallback timer is still armed (its
`setTimeout` handle was discarded, so nothing can cancel it) and
`isRestarting` is still `true` — refuting "the fallback timer is cancelled
and the RestartGuard is cleared immediately at the moment of exit". -/
theorem c2_counterexample :
    stopTrace.childProcess = none ∧
    stopTrace.killTimers = [5100] ∧
    stopTrace.isRestarting = true := by
  refine ⟨by decide, by decide, by decide⟩

/-- C2 amended.  When the child exits before the fallback fires, nothing is
cancelled and the guard is not cleared at exit: the exit handler leaves
`killTimers` and `isRestarting` untouched.  The fallback later fires, finds
`childProcess` null, sends no forceful kill, and only then clears the
guard. -/
theorem c2_amended :
    (∀ (pid : Nat) (s : SupState),
        (childExit pid s).killTimers = s.killTimers ∧
        (childExit pid s).isRestarting = s.isRestarting) ∧
    (∀ (t : Nat) (s : SupState), s.childProcess = none → t ∈ s.killTimers →
        killTimerFire t s =
          ({ s with killTimers := s.killTimers.erase t,
                    isRestarting := false }, [])) := by
  constructor
  · intro pid s
    by_cases h : pid ∈ s.live <;> simp [childExit, h]
  · intro t s hcp ht
    simp [killTimerFire, hcp, ht]

/-- C2 witness: the amended statement at the concrete stop trace. -/
theorem c2_amended_witness :
    (childExit 0 (killTargetApp 100 (startTargetApp 0 initState).1).1).killTimers
      = (killTargetApp 100 (startTargetApp 0 initState).1).1.killTimers ∧
    (childExit 0 (killTargetApp 100 (startTargetApp 0 initState).1).1).isRestarting
      = (killTargetApp 100 (startTargetApp 0 initState).1).1.isRestarting ∧
    (killTimerFire 5100 stopTrace).2 = [] ∧
    (killTimerFire 5100 stopTrace).1.isRestarting = false := by
  have h1 := c2_amended.1 0 (killTargetApp 100 (startTargetApp 0 initState).1).1
  have h2 := c2_amended.2 5100 stopTrace (by decide) (by decide)
  exact ⟨h1.1, h1.2, by rw [h2], by rw [h2]⟩

/-- C4.  A stop sequence in which the child ignores SIGTERM and is still
alive when the 5000 ms fallback fires: `childProcess.kill('SIGTERM')`
already set the child's `.killed` flag when it *sent* the signal, so the
fallback's guard `childProcess && !childProcess.killed` is false and no
SIGKILL is ever issued — the child stays alive, contradicting the claim
(and the source's own comment `// Force kill after timeout`). -/
theorem c4_no_forced_kill :
    (killTargetApp 100 (startTargetApp 0 initState).1).2
      = [SupAction.sigterm 0] ∧
    (killTimerFire 5100 (killTargetApp 100 (startTargetApp 0 initState).1).1).2
      = [] ∧
    (killTimerFire 5100 (killTargetApp 100 (startTargetApp 0 initState).1).1).1.live
      = [0] ∧
    (killTimerFire 5100 (killTargetApp 100 (startTargetApp 0 initState).1).1).1.childProcess
      = some 0 := by
  refine ⟨by decide, by decide, by decide, by decide⟩

/-- C10: `killTargetApp` with no live child object is a no-op — the state
(including `isRestarting` and the timer list) is unchanged and no signal is
sent. -/
theorem c10_kill_noop (now : Nat) (s : SupState)
    (h : s.childProcess = none) :
    killTargetApp now s = (s, []) := by
  simp [killTargetApp, h]

/-- C10 witness: the no-op at the initial state. -/
theorem c10_kill_noop_witness :
    killTargetApp 42 initState = (initState, []) :=
  c10_kill_noop 42 initState (by decide)

/-!
## DebounceController (source lines 163-179)

`handleFileChange` for a qualifying event (RestartGuard false, so the
`if (isRestarting) return;` guard does not fire): `clearTimeout` any
pending timer, then `setTimeout` a new one for `debounceMs` from now.  A
pending timer whose deadline arrives before the next event fires and
invokes the restart.  `debGo` folds this over the (increasing) event
times; `runDebounce` returns the times at which restarts fire.
-/

/-- One pass of the event loop over the qualifying change events: `pending`
is the armed timer's absolute deadline, `acc` the restarts fired so far. -/
def debGo (d : Nat) : Option Nat → List Nat → List Nat → List Nat
  | pending, acc, [] =>
      acc ++ (match pending with | some dl => [dl] | none => [])
  | some dl, acc, t :: ts =>
      if dl ≤ t then debGo d (some (t + d)) (acc ++ [dl]) ts
      else debGo d (some (t + d)) acc ts
  | none, acc, t :: ts => debGo d (some (t + d)) acc ts

/-- Restart times produced by a stream of qualifying change events. -/
def runDebounce (d : Nat) (events : List Nat) : List Nat :=
  debGo d none [] events

/-- The last element of `t :: ts`. -/
def lastOf (t : Nat) : List Nat → Nat
  | [] => t
  | x :: xs => lastOf x xs

/-- Strictly increasing event times whose inter-arrival gaps are all
smaller than `d`. -/
def gapsOk (d : Nat) : Nat → List Nat → Bool
  | _, [] => true
  | t, x :: xs => (decide (t < x) && decide (x < t + d)) && gapsOk d x xs

theorem debGo_quiet (d : Nat) (ts : List Nat) :
    ∀ (t : Nat) (acc : List Nat), gapsOk d t ts = true →
      debGo d (some (t + d)) acc ts = acc ++ [lastOf t ts + d] := by
  induction ts with
  | nil => intro t acc _; simp [debGo, lastOf]
  | cons x xs ih =>
      intro t acc hg
      simp only [gapsOk, Bool.and_eq_true, decide_eq_true_eq] at hg
      have hlt : ¬ t + d ≤ x := by omega
      rw [debGo, if_neg hlt, lastOf]
      exact ih x acc hg.2

/-- C3.  Debounce coalescing.  First part: for any nonempty sequence of
qualifying events with all gaps smaller than `debounceMs`, exactly one
restart occurs, fired `debounceMs` after the last event.  Second part: for
two qualifying events separated by more than `debounceMs`, two restarts
occur, each `debounceMs` after its event. -/
theorem c3_debounce :
    (∀ (d t : Nat) (ts : List Nat), gapsOk d t ts = true →
        runDebounce d (t :: ts) = [lastOf t ts + d]) ∧
    (∀ (d t1 t2 : Nat), t1 + d < t2 →
        runDebounce d [t1, t2] = [t1 + d, t2 + d]) := by
  constructor
  · intro d t ts hg
    rw [runDebounce, debGo, debGo_quiet d ts t [] hg, List.nil_append]
  · intro d t1 t2 h
    rw [runDebounce, debGo, debGo, if_pos (Nat.le_of_lt h), debGo,
      List.nil_append]
    rfl

/-- C3 witness: spec Scenario C (events at 0, 50, 90 ms with
`debounceMs = 100` give one restart at 190 ms) and a separated pair. -/
theorem c3_debounce_witness :
    runDebounce 100 [0, 50, 90] = [190] ∧
    runDebounce 100 [0, 200] = [100, 300] := by
  constructor
  · have h := c3_debounce.1 100 0 [50, 90] (by decide)
    simpa [lastOf] using h
  · exact c3_debounce.2 100 0 200 (by decide)

/-!
## WatchSet event callback (source lines 196-207)

The callback registered with `fs.watch`: a null filename returns early;
then the ignored-path branch reads `returns;` — an expression statement
evaluating the *undefined identifier* `returns`, which throws
`ReferenceError` out of the callback instead of returning; then the
extension filter returns early; otherwise `handleFileChange` runs.
`Except.ok false` models a clean drop before the debounce controller,
`Except.ok true` models reaching `handleFileChange`.
-/

/-- The runtime error class raised by the `returns;` typo. -/
inductive JsError where
  /-- `ReferenceError: returns is not defined` -/
  | referenceError
deriving DecidableEq

/-- `DEFAULT_CONFIG.ignorePatterns` (source lines 9-19). -/
def defaultIgnorePatterns : List (List Char) :=
  ["node_modules/**".toList, ".git/**".toList, "*.log".toList,
   "dist/**".toList, "build/**".toList, "coverage/**".toList,
   ".nyc_output/**".toList, "*.tmp".toList, "*.temp".toList]

/-- `DEFAULT_CONFIG.watchExtensions` (source line 20). -/
def defaultWatchExtensions : List (List Char) :=
  [".js".toList, ".mjs".toList, ".json".toList,
   ".ts".toList, ".jsx".toList, ".tsx".toList]

/-- The `fs.watch` event callback (source lines 196-207), taking the
already-relativized path.  `error` = the callback throws; `ok false` = the
event is dropped without touching the debounce state; `ok true` = the
event reaches `handleFileChange`. -/
def watchCallback (filename : Option (List Char))
    (ignorePatterns watchExtensions : List (List Char)) :
    Except JsError Bool :=
  match filename with
  | none => Except.ok false
  | some rel =>
      if shouldIgnore rel ignorePatterns then Except.error JsError.referenceError
      else if !shouldWatch rel watchExtensions then Except.ok false
      else Except.ok true

/-- C6.  An event whose relativized path matches an ignore pattern (here
`app.log` under the default configuration) does not reach the debounce
controller, but the callback does *not* return cleanly: the `returns;`
typo evaluates an undefined identifier and the callback throws a
`ReferenceError`. -/
theorem c6_ignored_event_throws :
    watchCallback (some "app.log".toList)
        defaultIgnorePatterns defaultWatchExtensions
      = Except.error JsError.referenceError ∧
    shouldIgnore "app.log".toList defaultIgnorePatterns = true := by
  refine ⟨by rfl, by decide⟩

/-!
## DirectoryEnumerator (source lines 67-89)

`getWatchDirectories(rootPath, ignorePatterns)`: `directories = [rootPath]`
then `traverse(rootPath)`.  `traverse` readdirs a directory inside a
`try { ... } catch {}`; for each subdirectory entry it relativizes the
full path against the root (`fullPath.replace(rootPath, '')` then a leading
`/` strip — i.e. the `/`-joined list of segment names), skips it if
`shouldIgnore` matches, and otherwise pushes it and recurses.

Directories are modelled as root-relative segment lists (`[]` is the root
itself); a filesystem is a tree whose node records whether `readdir`
succeeds (`ok`) and its subdirectory entries.  A failing `readdir` throws,
the `catch {}` swallows it, and the loop of the *caller* continues with
the sibling entries.
-/

mutual
/-- A directory: `ok` = `readdir` succeeds; `FSForest` = its
subdirectories (non-directory entries are skipped by the source). -/
inductive FSTree where
  | dir : Bool → FSForest → FSTree
/-- The subdirectory entries of a directory, in `readdir` order. -/
inductive FSForest where
  | nil : FSForest
  | cons : List Char → FSTree → FSForest → FSForest
end

/-- Join root-relative segments with `/` — exactly the string the source
passes to `shouldIgnore` after relativization. -/
def joinPath : List (List Char) → List Char
  | [] => []
  | [s] => s
  | s :: rest => s ++ '/' :: joinPath rest

mutual
/-- The recursive `traverse` of source lines 70-85, returning the pushed
directories below (not including) the directory itself. -/
def traverseDir (pats : List (List Char)) (relPath : List (List Char)) :
    FSTree → List (List (List Char))
  | .dir ok children =>
      if ok then traverseForest pats relPath children else []
/-- The entry loop of source lines 73-83 over the sibling entries. -/
def traverseForest (pats : List (List Char)) (relPath : List (List Char)) :
    FSForest → List (List (List Char))
  | .nil => []
  | .cons name sub rest =>
      (if shouldIgnore (joinPath (relPath ++ [name])) pats then []
       else (relPath ++ [name]) :: traverseDir pats (relPath ++ [name]) sub)
      ++ traverseForest pats relPath rest
end

/-- Source lines 67-89: the root itself first, then the traversal. -/
def getWatchDirectories (pats : List (List Char)) (t : FSTree) :
    List (List (List Char)) :=
  [] :: traverseDir pats [] t

mutual
theorem traverseDir_pruned (pats : List (List Char))
    (base : List (List Char)) (t : FSTree) :
    ∀ rp ∈ traverseDir pats base t, ∃ rest, rest ≠ [] ∧ rp = base ++ rest ∧
      ∀ k, 0 < k → k ≤ rest.length →
        shouldIgnore (joinPath (base ++ rest.take k)) pats = false := by
  cases t with
  | dir ok children =>
      cases ok with
      | false => intro rp hrp; simp [traverseDir] at hrp
      | true =>
          intro rp hrp
          rw [traverseDir, if_pos rfl] at hrp
          exact traverseForest_pruned pats base children rp hrp

theorem traverseForest_pruned (pats : List (List Char))
    (base : List (List Char)) (f : FSForest) :
    ∀ rp ∈ traverseForest pats base f, ∃ rest, rest ≠ [] ∧ rp = base ++ rest ∧
      ∀ k, 0 < k → k ≤ rest.length →
        shouldIgnore (joinPath (base ++ rest.take k)) pats = false := by
  cases f with
  | nil => intro rp hrp; simp [traverseForest] at hrp
  | cons name sub rest =>
      intro rp hrp
      rw [traverseForest] at hrp
      rcases List.mem_append.mp hrp with hl | hr
      · by_cases hig :
            shouldIgnore (joinPath (base ++ [name])) pats = true
        · rw [if_pos hig] at hl
          simp at hl
        · have hig' : shouldIgnore (joinPath (base ++ [name])) pats = false :=
            Bool.eq_false_iff.mpr hig
          rw [if_neg (by simp [hig'])] at hl
          rcases List.mem_cons.mp hl with lhead | ltail
          · refine ⟨[name], by simp, lhead, ?_⟩
            intro k hk0 hk1
            have hk1' : k ≤ 1 := by simpa using hk1
            have hk : k = 1 := by omega
            subst hk
            simpa using hig'
          · obtain ⟨rest', hne, heq, hpref⟩ :=
              traverseDir_pruned pats (base ++ [name]) sub rp ltail
            refine ⟨name :: rest', by simp, ?_, ?_⟩
            · rw [heq, List.append_assoc]
              rfl
            · intro k hk0 hk1
              cases k with
              | zero => omega
              | succ j =>
                  cases j with
                  | zero => simpa using hig'
                  | succ i =>
                      have hlen : i + 1 ≤ rest'.length := by
                        simp only [List.length_cons] at hk1
                        omega
                      have h2 : base ++ (name :: rest').take (i + 1 + 1)
                          = (base ++ [name]) ++ rest'.take (i + 1) := by
                        rw [List.take_succ_cons, List.append_assoc]
                        rfl
                      rw [h2]
                      exact hpref (i + 1) (by omega) hlen
      · exact traverseForest_pruned pats base rest rp hr
end

/-- C8.  `getWatchDirectories` always lists the root itself first; every
other enumerated directory, together with each of its ancestors below the
root, is not ignored (ignored directories are neither included nor
descended into); a directory whose `readdir` fails contributes no
descendants (the error is swallowed for that subtree only — it is still
listed by its parent if unignored) while its sibling entries continue to
be enumerated; the function is total, so the overall call never fails. -/
theorem c8_enumeration :
    (∀ (pats : List (List Char)) (t : FSTree),
        (getWatchDirectories pats t).head? = some []) ∧
    (∀ (pats : List (List Char)) (t : FSTree),
        ∀ rp ∈ traverseDir pats [] t, rp ≠ [] ∧
          ∀ k, 0 < k → k ≤ rp.length →
            shouldIgnore (joinPath (rp.take k)) pats = false) ∧
    (∀ (pats : List (List Char)) (rel : List (List Char)) (f : FSForest),
        traverseDir pats rel (FSTree.dir false f) = []) ∧
    (∀ (pats : List (List Char)) (rel : List (List Char)) (name : List Char)
        (f : FSForest) (rest : FSForest),
        traverseForest pats rel (FSForest.cons name (FSTree.dir false f) rest)
          = (if shouldIgnore (joinPath (rel ++ [name])) pats then []
             else [rel ++ [name]]) ++ traverseForest pats rel rest) := by
  refine ⟨?_, ?_, ?_, ?_⟩
  · intro pats t; rfl
  · intro pats t rp hrp
    obtain ⟨rest, hne, heq, hpref⟩ := traverseDir_pruned pats [] t rp hrp
    rw [List.nil_append] at heq
    subst heq
    refine ⟨hne, ?_⟩
    intro k hk0 hk1
    simpa using hpref k hk0 hk1
  · intro pats rel f; rfl
  · intro pats rel name f rest
    rw [traverseForest]
    split <;> simp [traverseDir]

/-- A sample filesystem: subdirectories `a`, `b`, `c`, `e` of the root,
where `b` matches the ignore pattern, `readdir` fails inside `c` (which
has a child `d`), and `a`, `e` are ordinary. -/
def sampleTree : FSTree :=
  FSTree.dir true
    (FSForest.cons "a".toList (FSTree.dir true FSForest.nil)
      (FSForest.cons "b".toList (FSTree.dir true FSForest.nil)
        (FSForest.cons "c".toList
          (FSTree.dir false
            (FSForest.cons "d".toList (FSTree.dir true FSForest.nil)
              FSForest.nil))
          (FSForest.cons "e".toList (FSTree.dir true FSForest.nil)
            FSForest.nil))))

/-- C8 witness: the enumeration facts at the sample filesystem with ignore
set `['b']` — root listed first; the enumerated directory `c` (whose
`readdir` fails) passes the ignore check; an error directory contributes no
descendants; and the error entry's siblings are still enumerated. -/
theorem c8_enumeration_witness :
    (getWatchDirectories ["b".toList] sampleTree).head? = some [] ∧
    shouldIgnore (joinPath (["c".toList].take 1)) ["b".toList]
      = false ∧
    traverseDir ["b".toList] []
        (FSTree.dir false
          (FSForest.cons "d".toList (FSTree.dir true FSForest.nil)
            FSForest.nil)) = [] ∧
    traverseForest ["b".toList] []
        (FSForest.cons "c".toList
          (FSTree.dir false
            (FSForest.cons "d".toList (FSTree.dir true FSForest.nil)
              FSForest.nil))
          (FSForest.cons "e".toList (FSTree.dir true FSForest.nil)
            FSForest.nil))
      = (if shouldIgnore (joinPath ([] ++ ["c".toList])) ["b".toList]
         then []
         else [[] ++ ["c".toList]])
        ++ traverseForest ["b".toList] []
             (FSForest.cons "e".toList (FSTree.dir true FSForest.nil)
               FSForest.nil) := by
  refine ⟨c8_enumeration.1 ["b".toList] sampleTree, ?_, ?_, ?_⟩
  · have h := (c8_enumeration.2.1 ["b".toList] sampleTree
      ["c".toList] (by decide)).2 1 (by decide) (by decide)
    simpa using h
  · exact c8_enumeration.2.2.1 ["b".toList] []
      (FSForest.cons "d".toList (FSTree.dir true FSForest.nil) FSForest.nil)
  · exact c8_enumeration.2.2.2 ["b".toList] [] "c".toList
      (FSForest.cons "d".toList (FSTree.dir true FSForest.nil) FSForest.nil)
      (FSForest.cons "e".toList (FSTree.dir true FSForest.nil) FSForest.nil)
